import Mathlib

/-!
Verification development for the optimistic-rollup cross-domain message
relayer (`packages/message-relayer/src/service/message-relayer.service.ts`).

Bytes are modelled as lists of naturals; the keccak256 hash and the RLP list
encoder are opaque byte-level functions supplied as parameters (bundled in
`Prims`), since the relayer treats them as black boxes.  Hex-string
concatenation in the source (ethers hex strings) is byte-aligned everywhere
it occurs, so it is modelled as list concatenation.
-/

namespace MessageRelayer

abbrev Bytes := List Nat

/-- External primitives the relayer calls: keccak256 over bytes and the RLP
encoding of a list of byte strings.  Both are opaque to the relayer. -/
structure Prims where
  keccak : Bytes → Bytes
  rlpEncode : List Bytes → Bytes

/-- Fuelled ceiling base-2 logarithm.  Translates the source expression
`Math.ceil(Math.log2(n))` (message-relayer.service.ts line 297) for `n ≥ 1`;
the fuel argument only forces termination and `n` units always suffice. -/
def ceilLog2Aux : Nat → Nat → Nat
  | 0, _ => 0
  | fuel + 1, n => if n ≤ 1 then 0 else 1 + ceilLog2Aux fuel ((n + 1) / 2)

/-- Ceiling base-2 logarithm: the smallest `k` with `n ≤ 2 ^ k` (for `n ≥ 1`). -/
def ceilLog2 (n : Nat) : Nat := ceilLog2Aux n n

theorem le_two_pow_ceilLog2Aux :
    ∀ fuel n, 1 ≤ n → n ≤ fuel → n ≤ 2 ^ ceilLog2Aux fuel n := by
  intro fuel
  induction fuel with
  | zero => intro n h1 h2; omega
  | succ f ih =>
    intro n h1 h2
    simp only [ceilLog2Aux]
    by_cases hle : n ≤ 1
    · rw [if_pos hle, pow_zero]
      exact hle
    · rw [if_neg hle]
      have hrec1 : 1 ≤ (n + 1) / 2 := by omega
      have hrec2 : (n + 1) / 2 ≤ f := by omega
      have hih := ih ((n + 1) / 2) hrec1 hrec2
      have h2n : n ≤ 2 * ((n + 1) / 2) := by omega
      calc n ≤ 2 * ((n + 1) / 2) := h2n
        _ ≤ 2 * 2 ^ ceilLog2Aux f ((n + 1) / 2) := by omega
        _ = 2 ^ (1 + ceilLog2Aux f ((n + 1) / 2)) := by rw [pow_add, pow_one]

theorem le_two_pow_ceilLog2 (n : Nat) (h : 1 ≤ n) : n ≤ 2 ^ ceilLog2 n :=
  le_two_pow_ceilLog2Aux n n h (le_refl n)

theorem ceilLog2_two_pow : ∀ k, ceilLog2 (2 ^ k) = k := by
  have key : ∀ k fuel, 2 ^ k ≤ fuel → ceilLog2Aux fuel (2 ^ k) = k := by
    intro k
    induction k with
    | zero =>
      intro fuel h
      cases fuel with
      | zero => omega
      | succ f => simp [ceilLog2Aux]
    | succ j ih =>
      intro fuel h
      have hpow : 2 ^ (j + 1) = 2 * 2 ^ j := by ring
      have hge : 2 ≤ 2 ^ (j + 1) := by
        have h1 : 1 ≤ 2 ^ j := Nat.one_le_two_pow
        omega
      cases fuel with
      | zero => omega
      | succ f =>
        simp only [ceilLog2Aux]
        have hgt : ¬ (2 ^ (j + 1) ≤ 1) := by omega
        rw [if_neg hgt]
        have hdiv : (2 ^ (j + 1) + 1) / 2 = 2 ^ j := by omega
        rw [hdiv, ih f (by omega)]
        omega
  intro k
  exact key k (2 ^ k) (le_refl _)

/-- One level of the batch-root Merkle tree: hash adjacent pairs, promoting an
unpaired trailing node unchanged (the default `merkletreejs` layering used by
`new MerkleTree(leaves, hash)` at message-relayer.service.ts line 315; with the
power-of-two padding the odd case never fires). -/
def combineLevel (keccak : Bytes → Bytes) : List Bytes → List Bytes
  | [] => []
  | [x] => [x]
  | x :: y :: rest => keccak (x ++ y) :: combineLevel keccak rest

theorem combineLevel_length (keccak : Bytes → Bytes) :
    ∀ l : List Bytes, (combineLevel keccak l).length = (l.length + 1) / 2 := by
  intro l
  induction l using combineLevel.induct keccak with
  | case1 => simp [combineLevel]
  | case2 x => simp [combineLevel]
  | case3 x y rest ih =>
    simp only [combineLevel, List.length_cons, ih]
    omega

theorem combineLevel_getElem? (keccak : Bytes → Bytes) :
    ∀ (j : Nat) (l : List Bytes), 2 * j + 1 < l.length →
      (combineLevel keccak l)[j]? =
        some (keccak ((l[2 * j]?).getD [] ++ (l[2 * j + 1]?).getD [])) := by
  intro j
  induction j with
  | zero =>
    intro l hl
    match l, hl with
    | x :: y :: rest, _ =>
      simp [combineLevel]
  | succ i ih =>
    intro l hl
    match l, hl with
    | x :: y :: rest, hl2 =>
      have hrest : 2 * i + 1 < rest.length := by
        simp only [List.length_cons] at hl2
        omega
      have e0 : 2 * (i + 1) = 2 * i + 1 + 1 := by ring
      have e1 : 2 * (i + 1) + 1 = 2 * i + 1 + 1 + 1 := by ring
      rw [e1, e0]
      simp only [combineLevel, List.getElem?_cons_succ]
      exact ih rest hrest

/-- Root of the layered Merkle tree after `k` combining rounds (the
`merkletreejs` layer loop; `k = ceilLog2` of the leaf count reaches the
single-element root layer). -/
def layersRootAux (keccak : Bytes → Bytes) : Nat → List Bytes → Bytes
  | 0, layer => layer.headD []
  | k + 1, layer => layersRootAux keccak k (combineLevel keccak layer)

/-- Root of the Merkle tree over the given leaves. -/
def layersRoot (keccak : Bytes → Bytes) (leaves : List Bytes) : Bytes :=
  layersRootAux keccak (ceilLog2 leaves.length) leaves

/-- A sibling lookup result: present when the pair index is in bounds. -/
def optToList : Option Bytes → List Bytes
  | some s => [s]
  | none => []

/-- Sibling list gathered by `tree.getProof(leaves[index], index)` over `k`
combining rounds: at each layer, the pair partner of the current index when it
is in bounds, then ascend. -/
def proofSiblingsAux (keccak : Bytes → Bytes) : Nat → List Bytes → Nat → List Bytes
  | 0, _, _ => []
  | k + 1, layer, index =>
    optToList (layer[(if index % 2 = 1 then index - 1 else index + 1)]?) ++
      proofSiblingsAux keccak k (combineLevel keccak layer) (index / 2)

/-- The bottom-up sibling list for the leaf at `index`. -/
def proofSiblings (keccak : Bytes → Bytes) (leaves : List Bytes) (index : Nat) : List Bytes :=
  proofSiblingsAux keccak (ceilLog2 leaves.length) leaves index

/-- Folding a leaf up a Merkle path: at each level the sibling is placed on
the left when the current index is odd, on the right when it is even. -/
def foldProof (keccak : Bytes → Bytes) (leaf : Bytes) (index : Nat) : List Bytes → Bytes
  | [] => leaf
  | s :: rest =>
    foldProof keccak (if index % 2 = 1 then keccak (s ++ leaf) else keccak (leaf ++ s))
      (index / 2) rest

theorem getElem?_eq_some_getD {α : Type} (l : List α) (m : Nat) (d : α) (h : m < l.length) :
    l[m]? = some (l.getD m d) := by
  rw [List.getElem?_eq_getElem h, List.getD_eq_getElem?_getD, List.getElem?_eq_getElem h]
  rfl

theorem foldProof_proofSiblingsAux (keccak : Bytes → Bytes) :
    ∀ (k : Nat) (layer : List Bytes) (index : Nat),
      layer.length = 2 ^ k → index < 2 ^ k →
      foldProof keccak (layer.getD index []) index (proofSiblingsAux keccak k layer index) =
        layersRootAux keccak k layer := by
  intro k
  induction k with
  | zero =>
    intro layer index hlen hidx
    have hidx0 : index = 0 := by omega
    match layer, hlen with
    | [x], _ =>
      subst hidx0
      simp [proofSiblingsAux, foldProof, layersRootAux, List.getD]
  | succ k ih =>
    intro layer index hlen hidx
    have hpow : (2 : Nat) ^ (k + 1) = 2 * 2 ^ k := by ring
    have hpos : 1 ≤ 2 ^ k := Nat.one_le_two_pow
    have hcomb_len : (combineLevel keccak layer).length = 2 ^ k := by
      rw [combineLevel_length, hlen]
      omega
    have hjlt : index / 2 < 2 ^ k := by omega
    have hraux : layersRootAux keccak (k + 1) layer =
        layersRootAux keccak k (combineLevel keccak layer) := rfl
    have hb2 : 2 * (index / 2) + 1 < layer.length := by omega
    have hcombget := combineLevel_getElem? keccak (index / 2) layer hb2
    have hcombD : (combineLevel keccak layer).getD (index / 2) [] =
        keccak ((layer[2 * (index / 2)]?).getD [] ++ (layer[2 * (index / 2) + 1]?).getD []) := by
      rw [List.getD_eq_getElem?_getD, hcombget]
      rfl
    rw [hraux]
    simp only [proofSiblingsAux]
    rcases Nat.mod_two_eq_zero_or_one index with hpar | hpar
    · -- even index: sibling on the right
      have hne : ¬ index % 2 = 1 := by omega
      have e0 : 2 * (index / 2) = index := by omega
      have e1 : 2 * (index / 2) + 1 = index + 1 := by omega
      rw [if_neg hne]
      have hs : layer[index + 1]? = some (layer.getD (index + 1) []) :=
        getElem?_eq_some_getD layer (index + 1) [] (by omega)
      rw [hs]
      simp only [optToList, List.cons_append, List.nil_append, foldProof]
      rw [if_neg hne]
      rw [e1, e0] at hcombD
      have hval : layer.getD index [] = (layer[index]?).getD [] := by
        rw [List.getD_eq_getElem?_getD]
      have hval1 : layer.getD (index + 1) [] = (layer[index + 1]?).getD [] := by
        rw [List.getD_eq_getElem?_getD]
      rw [hval, hval1, ← hcombD]
      exact ih (combineLevel keccak layer) (index / 2) hcomb_len hjlt
    · -- odd index: sibling on the left
      have e0 : 2 * (index / 2) = index - 1 := by omega
      have e1 : 2 * (index / 2) + 1 = index := by omega
      rw [if_pos hpar]
      have hs : layer[index - 1]? = some (layer.getD (index - 1) []) :=
        getElem?_eq_some_getD layer (index - 1) [] (by omega)
      rw [hs]
      simp only [optToList, List.cons_append, List.nil_append, foldProof]
      rw [if_pos hpar]
      rw [e1, e0] at hcombD
      have hval : layer.getD index [] = (layer[index]?).getD [] := by
        rw [List.getD_eq_getElem?_getD]
      have hval1 : layer.getD (index - 1) [] = (layer[index - 1]?).getD [] := by
        rw [List.getD_eq_getElem?_getD]
      rw [hval, hval1, ← hcombD]
      exact ih (combineLevel keccak layer) (index / 2) hcomb_len hjlt

/-- A `StateBatchAppended` event of the state commitment chain, as returned by
`queryFilter` (args plus the hash of the emitting L1 transaction, modelled as a
plain identifier). -/
structure BatchEvent where
  batchIndex : Nat
  batchRoot : Bytes
  batchSize : Nat
  prevTotalElements : Nat
  extraData : Bytes
  transactionHash : Nat
deriving DecidableEq

/-- The batch header assembled by `_getStateBatchHeader`
(message-relayer.service.ts lines 212-219). -/
structure StateBatchHeader where
  batchIndex : Nat
  batchRoot : Bytes
  batchSize : Nat
  prevTotalElements : Nat
  extraData : Bytes
  stateRoots : List Bytes
deriving DecidableEq

/-- A `SentMessage(bytes message)` event of the L2 cross-domain messenger. -/
structure SentEvent where
  blockNumber : Nat
  message : Bytes
deriving DecidableEq

/-- The fields produced by `decodeFunctionData('relayMessage', message)`. -/
structure DecodedRelayMessage where
  target : Bytes
  sender : Bytes
  message : Bytes
  messageNonce : Nat
deriving DecidableEq

/-- The `SentMessage` record built by `_getSentMessages`
(message-relayer.service.ts lines 250-258). -/
structure SentMessage where
  target : Bytes
  sender : Bytes
  data : Bytes
  nonce : Nat
  calldata : Bytes
  hash : Bytes
  height : Nat
deriving DecidableEq

/-- The relevant parts of an `eth_getProof` response: the account proof nodes
and, for each requested slot, the storage proof nodes (`storageProof[i].proof`). -/
structure EthProofResult where
  accountProof : List Bytes
  storageProof : List (List Bytes)
deriving DecidableEq

structure StateRootProof where
  index : Nat
  siblings : List Bytes
deriving DecidableEq

/-- The proof bundle returned by `_getMessageProof`
(message-relayer.service.ts lines 321-330). -/
structure MessageProof where
  stateRoot : Bytes
  stateRootBatchHeader : StateBatchHeader
  stateRootProof : StateRootProof
  stateTrieWitness : Bytes
  storageTrieWitness : Bytes
deriving DecidableEq

/-- The on-chain state and RPC behaviour visible to the relayer during a run:
the state commitment chain's event log and fraud-window view, the decoded
calldata of each `appendStateBatch` transaction, the L2 messenger's event log
and ABI decoder, the L2 node's `eth_getProof` endpoint (`none` models an RPC
failure or an absent proof), the L1 messenger's `successfulMessages` map, and
the configured contract addresses (20-byte forms). -/
structure World where
  batchEvents : List BatchEvent
  txStateRoots : Nat → List Bytes
  insideFraudProofWindow : StateBatchHeader → Bool
  sentMessageEvents : List SentEvent
  decodeRelayMessage : Bytes → Option DecodedRelayMessage
  ethGetProof : Bytes → Bytes → Nat → Option EthProofResult
  successfulMessages : Bytes → Bool
  l2CrossDomainMessengerAddress : Bytes
  l2ToL1MessagePasserAddress : Bytes

/-- The covering test used by `_getStateBatchHeader`'s `events.find`
(message-relayer.service.ts lines 191-198): the event's range
`[prevTotalElements, prevTotalElements + batchSize)` contains the height. -/
def coversHeight (e : BatchEvent) (height : Nat) : Bool :=
  decide (e.prevTotalElements ≤ height) &&
    decide (height < e.prevTotalElements + e.batchSize)

/-- The header assembled from a found event: the event args plus the
`stateRoots` decoded from the emitting transaction's `appendStateBatch`
calldata (message-relayer.service.ts lines 204-219). -/
def headerOfEvent (w : World) (e : BatchEvent) : StateBatchHeader :=
  { batchIndex := e.batchIndex
    batchRoot := e.batchRoot
    batchSize := e.batchSize
    prevTotalElements := e.prevTotalElements
    extraData := e.extraData
    stateRoots := w.txStateRoots e.transactionHash }

/-- `_getStateBatchHeader` (message-relayer.service.ts lines 185-220): scan all
`StateBatchAppended` events, take the first whose range covers the height, and
populate the header from it; `none` when no event covers the height. -/
def _getStateBatchHeader (w : World) (height : Nat) : Option StateBatchHeader :=
  (w.batchEvents.find? (fun e => coversHeight e height)).map (headerOfEvent w)

/-- `_isTransactionFinalized` (message-relayer.service.ts lines 222-230):
false when no batch covers the height, otherwise the negation of the state
commitment chain's `insideFraudProofWindow` view on the full header. -/
def _isTransactionFinalized (w : World) (height : Nat) : Bool :=
  match _getStateBatchHeader w height with
  | none => false
  | some batch => ! w.insideFraudProofWindow batch

/-- A JavaScript `Array.prototype.map` whose body may throw: the first failure
aborts the whole map (exception propagation). -/
def mapExcept {α β : Type} (f : α → Except Unit β) : List α → Except Unit (List β)
  | [] => .ok []
  | a :: l =>
    match f a with
    | .error e => .error e
    | .ok b =>
      match mapExcept f l with
      | .error e => .error e
      | .ok bs => .ok (b :: bs)

/-- The events returned by
`queryFilter(filter, startHeight + blockOffset, endHeight + blockOffset)`
(message-relayer.service.ts lines 237-241): `eth_getLogs` with both bounds
inclusive. -/
def eventsInRange (w : World) (blockOffset startHeight endHeight : Nat) : List SentEvent :=
  w.sentMessageEvents.filter
    (fun e =>
      decide (startHeight + blockOffset ≤ e.blockNumber) &&
        decide (e.blockNumber ≤ endHeight + blockOffset))

/-- The body of `_getSentMessages`'s `events.map` (message-relayer.service.ts
lines 243-259): decode the event payload as `relayMessage` calldata (a decode
failure throws) and build the `SentMessage` record. -/
def decodeSentEvent (px : Prims) (w : World) (blockOffset : Nat) (e : SentEvent) :
    Except Unit SentMessage :=
  match w.decodeRelayMessage e.message with
  | none => .error ()
  | some d =>
    .ok
      { target := d.target
        sender := d.sender
        data := d.message
        nonce := d.messageNonce
        calldata := e.message
        hash := px.keccak e.message
        height := e.blockNumber - blockOffset }

/-- `_getSentMessages` (message-relayer.service.ts lines 232-260). -/
def _getSentMessages (px : Prims) (w : World) (blockOffset startHeight endHeight : Nat) :
    Except Unit (List SentMessage) :=
  mapExcept (decodeSentEvent px w blockOffset) (eventsInRange w blockOffset startHeight endHeight)

/-- The storage slot computed at message-relayer.service.ts lines 267-271:
`keccak256(keccak256(message.calldata + address.slice(2)) + '00'.repeat(32))`,
with hex-string concatenation modelled as byte concatenation (`slice(2)` drops
the `0x` prefix, leaving the 20 raw address bytes, and the appended hex zeros
are 32 zero bytes). -/
def relayerMessageSlot (keccak : Bytes → Bytes) (calldata messengerAddress : Bytes) : Bytes :=
  keccak (keccak (calldata ++ messengerAddress) ++ List.replicate 32 0)

/-- Modelled from the spec: the storage slot law of section 4.3 step A,
`slot = keccak256(keccak256(message.calldata || l2CrossDomainMessengerAddress)
|| 0x00...00 (32 bytes))`, with the messenger address in its 20-byte form. -/
def specStorageSlot (keccak : Bytes → Bytes) (calldata messengerAddress : Bytes) : Bytes :=
  keccak (keccak (calldata ++ messengerAddress) ++ List.replicate 32 0)

/-- The padded element list of `_getMessageProof`'s tree-building loop
(message-relayer.service.ts lines 294-305): `2 ^ ceil(log2 n)` entries, the
state roots first, then 32-zero-byte fillers. -/
def padElements (stateRoots : List Bytes) : List Bytes :=
  (List.range (2 ^ ceilLog2 stateRoots.length)).map
    (fun i => if i < stateRoots.length then stateRoots.getD i [] else List.replicate 32 0)

/-- `_getMessageProof` (message-relayer.service.ts lines 266-331).  A failed or
absent `eth_getProof` response and a missing covering batch are both caught and
produce `undefined` (modelled as `none`).  Otherwise the proof bundle is built
from the padded Merkle tree over the batch's state roots. -/
def _getMessageProof (px : Prims) (w : World) (blockOffset : Nat) (m : SentMessage) :
    Option MessageProof :=
  match w.ethGetProof w.l2ToL1MessagePasserAddress
      (relayerMessageSlot px.keccak m.calldata w.l2CrossDomainMessengerAddress)
      (m.height + blockOffset) with
  | none => none
  | some proof =>
    match _getStateBatchHeader w m.height with
    | none => none
    | some batch =>
      some
        { stateRoot := batch.stateRoots.getD (m.height - batch.prevTotalElements) []
          stateRootBatchHeader := batch
          stateRootProof :=
            { index := m.height - batch.prevTotalElements
              siblings :=
                proofSiblings px.keccak ((padElements batch.stateRoots).map px.keccak)
                  (m.height - batch.prevTotalElements) }
          stateTrieWitness := px.rlpEncode proof.accountProof
          storageTrieWitness := px.rlpEncode (proof.storageProof.headD []) }

/-- The controller's cursor (message-relayer.service.ts lines 42-43). -/
structure RelayerState where
  lastFinalizedTxHeight : Nat
  nextUnfinalizedTxHeight : Nat
deriving DecidableEq

/-- The cursor-advance loop of `_start` (message-relayer.service.ts lines
131-137): while the height is finalized, jump by the covering batch's size.
The fuel argument only forces termination; the loop is a no-op once the guard
fails, so any sufficiently large fuel computes the loop's result. -/
def advanceCursor (w : World) : Nat → Nat → Nat
  | 0, next => next
  | fuel + 1, next =>
    if _isTransactionFinalized w next then
      match _getStateBatchHeader w next with
      | some batch => advanceCursor w fuel (next + batch.batchSize)
      | none => next
    else next

/-- What one tick observed: the cursor afterwards and, in order, each call of
`_relayMessageToL1` made in the message loop, with the proof value (possibly
`undefined`) it was given (message-relayer.service.ts lines 152-177). -/
structure TickResult where
  state : RelayerState
  relayCalls : List (SentMessage × Option MessageProof)
deriving DecidableEq

/-- One tick of the relay loop: the body of `_start`'s `while` after the sleep
(message-relayer.service.ts lines 120-177).  If the next height is not
finalized the tick is a no-op.  Otherwise the cursor advances batch by batch,
messages are scanned over the inclusive block range, and each message that is
not yet relayed gets a `_relayMessageToL1` call carrying whatever
`_getMessageProof` returned; submission errors are caught and do not affect
the cursor.  An uncaught exception (a decode failure during the scan)
propagates out of the tick as `.error`. -/
def tick (px : Prims) (w : World) (blockOffset fuel : Nat) (s : RelayerState) :
    Except Unit TickResult :=
  if ! _isTransactionFinalized w s.nextUnfinalizedTxHeight then
    .ok { state := s, relayCalls := [] }
  else
    match _getSentMessages px w blockOffset s.nextUnfinalizedTxHeight
        (advanceCursor w fuel s.nextUnfinalizedTxHeight) with
    | .error e => .error e
    | .ok messages =>
      .ok
        { state :=
            { lastFinalizedTxHeight := s.nextUnfinalizedTxHeight
              nextUnfinalizedTxHeight := advanceCursor w fuel s.nextUnfinalizedTxHeight }
          relayCalls :=
            messages.filterMap
              (fun m =>
                if w.successfulMessages m.hash then none
                else some (m, _getMessageProof px w blockOffset m)) }

/-- The cursor after one tick; an escaped exception leaves the cursor as it
was (and, in the source, terminates the loop). -/
def tickState (px : Prims) (w : World) (blockOffset fuel : Nat) (s : RelayerState) :
    RelayerState :=
  match tick px w blockOffset fuel s with
  | .ok r => r.state
  | .error _ => s

/-- The relay calls made during one tick (none when the tick threw). -/
def tickCalls (px : Prims) (w : World) (blockOffset fuel : Nat) (s : RelayerState) :
    List (SentMessage × Option MessageProof) :=
  match tick px w blockOffset fuel s with
  | .ok r => r.relayCalls
  | .error _ => []

/-- The cursor after `n` ticks, starting from `s`. -/
def stateAfter (px : Prims) (w : World) (blockOffset fuel : Nat) (s : RelayerState) :
    Nat → RelayerState
  | 0 => s
  | n + 1 => tickState px w blockOffset fuel (stateAfter px w blockOffset fuel s n)

/-- The relay loop of `_start` run for at most `ticks` ticks: an exception
escaping a tick aborts the loop (there is no try/catch around the scan in the
source), so no further tick runs. -/
def runLoop (px : Prims) (w : World) (blockOffset fuel : Nat) :
    Nat → RelayerState → Except Unit RelayerState
  | 0, s => .ok s
  | n + 1, s =>
    match tick px w blockOffset fuel s with
    | .error e => .error e
    | .ok r => runLoop px w blockOffset fuel n r.state

/-- JavaScript `x || d` on an optionally-supplied number: an absent value and
the falsy number `0` both collapse to the default (message-relayer.service.ts
lines 71-74). -/
def jsNumberOrDefault (x : Option Int) (d : Int) : Int :=
  match x with
  | none => d
  | some v => if v = 0 then d else v

/-- The optional configuration values consumed by `_init`. -/
structure RelayerOptions where
  l2ChainStartingHeight : Option Int
  pollingInterval : Option Int
  blockOffset : Option Int

/-- The four fields assigned by `_init` from the options
(message-relayer.service.ts lines 71-74). -/
structure InitFields where
  pollingInterval : Int
  lastFinalizedTxHeight : Int
  nextUnfinalizedTxHeight : Int
  blockOffset : Int
deriving DecidableEq

def initFields (o : RelayerOptions) : InitFields :=
  { pollingInterval := jsNumberOrDefault o.pollingInterval 5000
    lastFinalizedTxHeight := jsNumberOrDefault o.l2ChainStartingHeight 0
    nextUnfinalizedTxHeight := jsNumberOrDefault o.l2ChainStartingHeight 0
    blockOffset := jsNumberOrDefault o.blockOffset 0 }

theorem advanceCursor_le (w : World) :
    ∀ fuel next, next ≤ advanceCursor w fuel next := by
  intro fuel
  induction fuel with
  | zero => intro next; simp [advanceCursor]
  | succ f ih =>
    intro next
    simp only [advanceCursor]
    by_cases hfin : _isTransactionFinalized w next
    · rw [if_pos hfin]
      cases hb : _getStateBatchHeader w next with
      | none => exact le_refl next
      | some batch => exact le_trans (Nat.le_add_right next batch.batchSize) (ih _)
    · rw [if_neg hfin]

theorem getStateBatchHeader_covers (w : World) (height : Nat) (batch : StateBatchHeader)
    (h : _getStateBatchHeader w height = some batch) :
    batch.prevTotalElements ≤ height ∧ height < batch.prevTotalElements + batch.batchSize := by
  unfold _getStateBatchHeader at h
  cases hfind : w.batchEvents.find? (fun e => coversHeight e height) with
  | none => rw [hfind] at h; simp at h
  | some e =>
    rw [hfind] at h
    simp only [Option.map] at h
    have hcov : coversHeight e height = true := by
      simpa using List.find?_some hfind
    unfold coversHeight at hcov
    simp only [Bool.and_eq_true, decide_eq_true_eq] at hcov
    cases h
    exact ⟨hcov.1, hcov.2⟩

theorem mapExcept_forall2 {α β : Type} (f : α → Except Unit β) :
    ∀ (l : List α) (res : List β), mapExcept f l = .ok res →
      List.Forall₂ (fun a b => f a = .ok b) l res := by
  intro l
  induction l with
  | nil =>
    intro res h
    simp only [mapExcept] at h
    cases h
    exact List.Forall₂.nil
  | cons a t ih =>
    intro res h
    simp only [mapExcept] at h
    cases hfa : f a with
    | error e => rw [hfa] at h; cases h
    | ok b =>
      rw [hfa] at h
      cases hrest : mapExcept f t with
      | error e => rw [hrest] at h; cases h
      | ok bs =>
        rw [hrest] at h
        cases h
        exact List.Forall₂.cons hfa (ih bs hrest)

theorem forall2_mem_right {α β : Type} {R : α → β → Prop} :
    ∀ {l : List α} {res : List β}, List.Forall₂ R l res →
      ∀ b, b ∈ res → ∃ a, a ∈ l ∧ R a b := by
  intro l res h
  induction h with
  | nil => intro b hb; cases hb
  | cons hab htail ih =>
    intro b hb
    rcases List.mem_cons.mp hb with h1 | h1
    · subst h1
      exact ⟨_, List.mem_cons_self _ _, hab⟩
    · rcases ih b h1 with ⟨a, ha, hr⟩
      exact ⟨a, List.mem_cons_of_mem _ ha, hr⟩

theorem mapExcept_mem_of_ok {α β : Type} (f : α → Except Unit β)
    (l : List α) (res : List β) (h : mapExcept f l = .ok res) :
    ∀ b, b ∈ res → ∃ a, a ∈ l ∧ f a = .ok b :=
  forall2_mem_right (mapExcept_forall2 f l res h)

theorem mapExcept_error_of_mem {α β : Type} (f : α → Except Unit β) :
    ∀ (l : List α) (a : α), a ∈ l → f a = .error () → mapExcept f l = .error () := by
  intro l
  induction l with
  | nil => intro a ha; cases ha
  | cons hd t ih =>
    intro a ha herr
    rcases List.mem_cons.mp ha with h | h
    · subst h
      simp only [mapExcept, herr]
    · simp only [mapExcept]
      cases hfa : f hd with
      | error e => rfl
      | ok b => rw [ih a h herr]

theorem next_le_tickState (px : Prims) (w : World) (blockOffset fuel : Nat)
    (s : RelayerState) :
    s.nextUnfinalizedTxHeight ≤ (tickState px w blockOffset fuel s).nextUnfinalizedTxHeight := by
  unfold tickState tick
  by_cases hfin : _isTransactionFinalized w s.nextUnfinalizedTxHeight
  · simp only [hfin, Bool.not_true, Bool.false_eq_true, if_false]
    cases hmsg : _getSentMessages px w blockOffset s.nextUnfinalizedTxHeight
        (advanceCursor w fuel s.nextUnfinalizedTxHeight) with
    | error e => simp
    | ok messages => simpa using advanceCursor_le w fuel s.nextUnfinalizedTxHeight
  · simp only [Bool.not_eq_true] at hfin
    simp [hfin]

theorem last_le_next_tickState (px : Prims) (w : World) (blockOffset fuel : Nat)
    (s : RelayerState) (h : s.lastFinalizedTxHeight ≤ s.nextUnfinalizedTxHeight) :
    (tickState px w blockOffset fuel s).lastFinalizedTxHeight ≤
      (tickState px w blockOffset fuel s).nextUnfinalizedTxHeight := by
  unfold tickState tick
  by_cases hfin : _isTransactionFinalized w s.nextUnfinalizedTxHeight
  · simp only [hfin, Bool.not_true, Bool.false_eq_true, if_false]
    cases hmsg : _getSentMessages px w blockOffset s.nextUnfinalizedTxHeight
        (advanceCursor w fuel s.nextUnfinalizedTxHeight) with
    | error e => simpa using h
    | ok messages => simpa using advanceCursor_le w fuel s.nextUnfinalizedTxHeight
  · simp only [Bool.not_eq_true] at hfin
    simpa [hfin] using h

theorem stateAfter_last_le_next (px : Prims) (w : World) (blockOffset fuel : Nat)
    (s : RelayerState) (h : s.lastFinalizedTxHeight ≤ s.nextUnfinalizedTxHeight) :
    ∀ n, (stateAfter px w blockOffset fuel s n).lastFinalizedTxHeight ≤
      (stateAfter px w blockOffset fuel s n).nextUnfinalizedTxHeight := by
  intro n
  induction n with
  | zero => exact h
  | succ k ih => exact last_le_next_tickState px w blockOffset fuel _ ih

theorem stateAfter_next_mono (px : Prims) (w : World) (blockOffset fuel : Nat)
    (s : RelayerState) :
    ∀ n, s.nextUnfinalizedTxHeight ≤
      (stateAfter px w blockOffset fuel s n).nextUnfinalizedTxHeight := by
  intro n
  induction n with
  | zero => exact le_refl _
  | succ k ih => exact le_trans ih (next_le_tickState px w blockOffset fuel _)

/-- C4.  Cursor monotonicity: starting from both cursor fields initialized to
`l2ChainStartingHeight`, across every tick of the relay loop
`nextUnfinalizedTxHeight` is non-decreasing and
`lastFinalizedTxHeight ≤ nextUnfinalizedTxHeight` holds after every tick; the
cursor is never rewound. -/
theorem C4_cursor_monotonicity (px : Prims) (w : World) (blockOffset fuel start n : Nat) :
    stateAfter px w blockOffset fuel ⟨start, start⟩ 0 = ⟨start, start⟩ ∧
    (stateAfter px w blockOffset fuel ⟨start, start⟩ n).lastFinalizedTxHeight ≤
      (stateAfter px w blockOffset fuel ⟨start, start⟩ n).nextUnfinalizedTxHeight ∧
    (stateAfter px w blockOffset fuel ⟨start, start⟩ n).nextUnfinalizedTxHeight ≤
      (stateAfter px w blockOffset fuel ⟨start, start⟩ (n + 1)).nextUnfinalizedTxHeight := by
  refine ⟨rfl, stateAfter_last_le_next px w blockOffset fuel _ (le_refl start) n, ?_⟩
  exact next_le_tickState px w blockOffset fuel _

/-- Concrete chain used for the cursor-advance and batch-lookup scenarios: two
consecutive finalized batches of sizes 5 and 7 at `prevTotalElements` 0 and 5. -/
def W5 : World :=
  { batchEvents :=
      [ { batchIndex := 0, batchRoot := [1], batchSize := 5, prevTotalElements := 0
          extraData := [], transactionHash := 0 }
      , { batchIndex := 1, batchRoot := [2], batchSize := 7, prevTotalElements := 5
          extraData := [], transactionHash := 1 } ]
    txStateRoots := fun t =>
      if t = 0 then [[10], [11], [12], [13], [14]]
      else [[20], [21], [22], [23], [24], [25], [26]]
    insideFraudProofWindow := fun _ => false
    sentMessageEvents := []
    decodeRelayMessage := fun _ => none
    ethGetProof := fun _ _ _ => none
    successfulMessages := fun _ => false
    l2CrossDomainMessengerAddress := []
    l2ToL1MessagePasserAddress := [] }

/-- A concrete stand-in for the opaque primitives, used in concrete runs. -/
def pxAny : Prims :=
  { keccak := fun b => 0 :: b, rlpEncode := fun _ => [] }

/-- C5.  Cursor advance: while `isTransactionFinalized(nextUnfinalizedTxHeight)`
is true the loop fetches that height's batch header and increases the cursor by
exactly that batch's `batchSize`; on two consecutive finalized batches of sizes
5 and 7 at `prevTotalElements` 0 and 5, a single tick advances the cursor from
0 to 12. -/
theorem C5_cursor_advance :
    (∀ (w : World) (fuel next : Nat) (batch : StateBatchHeader),
      _isTransactionFinalized w next = true →
      _getStateBatchHeader w next = some batch →
      advanceCursor w (fuel + 1) next = advanceCursor w fuel (next + batch.batchSize)) ∧
    tickState pxAny W5 0 3 ⟨0, 0⟩ = ⟨0, 12⟩ := by
  constructor
  · intro w fuel next batch hfin hbatch
    simp only [advanceCursor, hfin, if_true, hbatch]
  · decide

theorem C5_cursor_advance_witness :
    advanceCursor W5 3 0 = advanceCursor W5 2 (0 + 5) :=
  C5_cursor_advance.1 W5 2 0
    { batchIndex := 0, batchRoot := [1], batchSize := 5, prevTotalElements := 0
      extraData := [], stateRoots := [[10], [11], [12], [13], [14]] }
    (by decide) (by decide)

/-- C6.  `_getStateBatchHeader` lookup: a returned header comes from a
`StateBatchAppended` event whose range covers the height, fully populated from
the event args and the decoded `appendStateBatch` calldata of its transaction;
`none` is returned exactly when no event covers the height. -/
theorem C6_getStateBatchHeader_lookup (w : World) (height : Nat) :
    (∀ hdr, _getStateBatchHeader w height = some hdr →
      ∃ e, e ∈ w.batchEvents ∧ coversHeight e height = true ∧ hdr = headerOfEvent w e) ∧
    (_getStateBatchHeader w height = none →
      ∀ e, e ∈ w.batchEvents → coversHeight e height = false) := by
  constructor
  · intro hdr h
    unfold _getStateBatchHeader at h
    cases hfind : w.batchEvents.find? (fun e => coversHeight e height) with
    | none => rw [hfind] at h; cases h
    | some e =>
      rw [hfind] at h
      simp only [Option.map] at h
      have hcov : coversHeight e height = true := by
        simpa using List.find?_some hfind
      exact ⟨e, List.mem_of_find?_eq_some hfind, hcov, (Option.some_inj.mp h).symm⟩
  · intro h e he
    unfold _getStateBatchHeader at h
    cases hfind : w.batchEvents.find? (fun e => coversHeight e height) with
    | none =>
      have := List.find?_eq_none.mp hfind e he
      simpa using this
    | some e2 => rw [hfind] at h; cases h

theorem C6_getStateBatchHeader_lookup_witness :
    ∃ e, e ∈ W5.batchEvents ∧ coversHeight e 7 = true ∧
      ({ batchIndex := 1, batchRoot := [2], batchSize := 7, prevTotalElements := 5
         extraData := [], stateRoots := [[20], [21], [22], [23], [24], [25], [26]] }
        : StateBatchHeader) = headerOfEvent W5 e :=
  (C6_getStateBatchHeader_lookup W5 7).1 _ (by decide)

/-- C3.  Storage slot law: the slot `_getMessageProof` passes to `eth_getProof`
equals `keccak256(keccak256(calldata || messengerAddressBytes) || zeros32)`,
and the proof request depends on the `eth_getProof` oracle only at that slot
(for the message passer account at block `height + blockOffset`). -/
theorem C3_storage_slot_law :
    (∀ (keccak : Bytes → Bytes) (calldata addr : Bytes),
      relayerMessageSlot keccak calldata addr = specStorageSlot keccak calldata addr) ∧
    (∀ (px : Prims) (w w2 : World) (blockOffset : Nat) (m : SentMessage),
      w2.batchEvents = w.batchEvents →
      w2.txStateRoots = w.txStateRoots →
      w2.l2CrossDomainMessengerAddress = w.l2CrossDomainMessengerAddress →
      w2.l2ToL1MessagePasserAddress = w.l2ToL1MessagePasserAddress →
      w2.ethGetProof w.l2ToL1MessagePasserAddress
          (specStorageSlot px.keccak m.calldata w.l2CrossDomainMessengerAddress)
          (m.height + blockOffset) =
        w.ethGetProof w.l2ToL1MessagePasserAddress
          (specStorageSlot px.keccak m.calldata w.l2CrossDomainMessengerAddress)
          (m.height + blockOffset) →
      _getMessageProof px w2 blockOffset m = _getMessageProof px w blockOffset m) := by
  constructor
  · intro keccak calldata addr
    rfl
  · intro px w w2 blockOffset m hbe hts haddr hpasser hagree
    have hbatch : ∀ h, _getStateBatchHeader w2 h = _getStateBatchHeader w h := by
      intro h
      unfold _getStateBatchHeader headerOfEvent
      rw [hbe, hts]
    have hslot : relayerMessageSlot px.keccak m.calldata w.l2CrossDomainMessengerAddress =
        specStorageSlot px.keccak m.calldata w.l2CrossDomainMessengerAddress := rfl
    unfold _getMessageProof
    rw [haddr, hpasser, hbatch, hslot, hagree]

theorem C3_storage_slot_law_witness :
    relayerMessageSlot pxAny.keccak [1, 2] [3] = specStorageSlot pxAny.keccak [1, 2] [3] ∧
    _getMessageProof pxAny W5 0 ⟨[1], [2], [3], 7, [9], [0, 9], 0⟩ =
      _getMessageProof pxAny W5 0 ⟨[1], [2], [3], 7, [9], [0, 9], 0⟩ :=
  ⟨C3_storage_slot_law.1 pxAny.keccak [1, 2] [3],
    C3_storage_slot_law.2 pxAny W5 W5 0 ⟨[1], [2], [3], 7, [9], [0, 9], 0⟩
      rfl rfl rfl rfl rfl⟩

/-- C10.  Falsy-default collapse at initialization: a configured
`pollingInterval` of 0 is silently replaced by the default 5000 ms;
`l2ChainStartingHeight` and `blockOffset` given as 0 coincide with their
defaults of 0; and the service never runs with `pollingInterval = 0`. -/
theorem C10_falsy_default_collapse :
    (∀ (s b : Option Int),
      (initFields { l2ChainStartingHeight := s, pollingInterval := some 0, blockOffset := b
        }).pollingInterval = 5000) ∧
    (∀ (p : Option Int),
      (initFields { l2ChainStartingHeight := some 0, pollingInterval := p, blockOffset := some 0
        }).lastFinalizedTxHeight = 0 ∧
      (initFields { l2ChainStartingHeight := some 0, pollingInterval := p, blockOffset := some 0
        }).nextUnfinalizedTxHeight = 0 ∧
      (initFields { l2ChainStartingHeight := some 0, pollingInterval := p, blockOffset := some 0
        }).blockOffset = 0) ∧
    (∀ o : RelayerOptions, (initFields o).pollingInterval ≠ 0) := by
  refine ⟨fun s b => rfl, fun p => ⟨rfl, rfl, rfl⟩, ?_⟩
  intro o
  unfold initFields jsNumberOrDefault
  cases o.pollingInterval with
  | none => simp
  | some v =>
    by_cases hv : v = 0
    · simp [hv]
    · simp [hv]

/-- C7.  Message scanning: `_getSentMessages` queries `SentMessage` logs
between block numbers `startHeight + blockOffset` and `endHeight + blockOffset`
and, event by event, returns a `SentMessage` whose target, sender, data and
nonce are the decoded `relayMessage` fields of the event payload, whose
calldata is the payload itself, whose hash is keccak256 of the payload, and
whose height is `event.blockNumber - blockOffset`. -/
theorem C7_message_scanning (px : Prims) (w : World) (blockOffset startHeight endHeight : Nat)
    (msgs : List SentMessage) (_hrange : startHeight ≤ endHeight)
    (h : _getSentMessages px w blockOffset startHeight endHeight = .ok msgs) :
    (∀ e, e ∈ eventsInRange w blockOffset startHeight endHeight →
      startHeight + blockOffset ≤ e.blockNumber ∧ e.blockNumber ≤ endHeight + blockOffset) ∧
    List.Forall₂
      (fun (e : SentEvent) (m : SentMessage) =>
        ∃ d, w.decodeRelayMessage e.message = some d ∧
          m.target = d.target ∧ m.sender = d.sender ∧ m.data = d.message ∧
          m.nonce = d.messageNonce ∧ m.calldata = e.message ∧
          m.hash = px.keccak e.message ∧ m.height = e.blockNumber - blockOffset)
      (eventsInRange w blockOffset startHeight endHeight) msgs := by
  constructor
  · intro e he
    unfold eventsInRange at he
    have hb := (List.mem_filter.mp he).2
    simp only [Bool.and_eq_true, decide_eq_true_eq] at hb
    exact hb
  · have h2 := mapExcept_forall2 (decodeSentEvent px w blockOffset) _ msgs h
    refine h2.imp ?_
    intro e m hm
    unfold decodeSentEvent at hm
    cases hd : w.decodeRelayMessage e.message with
    | none => rw [hd] at hm; cases hm
    | some d =>
      rw [hd] at hm
      cases hm
      exact ⟨d, rfl, rfl, rfl, rfl, rfl, rfl, rfl, rfl⟩

/-- Concrete world used to witness the message-scanning claim: one `SentMessage`
event at block 2 whose payload decodes successfully, with `blockOffset = 1`. -/
def W7 : World :=
  { batchEvents := []
    txStateRoots := fun _ => []
    insideFraudProofWindow := fun _ => false
    sentMessageEvents := [{ blockNumber := 2, message := [5] }]
    decodeRelayMessage := fun _ =>
      some { target := [1], sender := [2], message := [3], messageNonce := 4 }
    ethGetProof := fun _ _ _ => none
    successfulMessages := fun _ => false
    l2CrossDomainMessengerAddress := []
    l2ToL1MessagePasserAddress := [] }

theorem C7_message_scanning_witness :
    (∀ e, e ∈ eventsInRange W7 1 0 3 →
      0 + 1 ≤ e.blockNumber ∧ e.blockNumber ≤ 3 + 1) ∧
    List.Forall₂
      (fun (e : SentEvent) (m : SentMessage) =>
        ∃ d, W7.decodeRelayMessage e.message = some d ∧
          m.target = d.target ∧ m.sender = d.sender ∧ m.data = d.message ∧
          m.nonce = d.messageNonce ∧ m.calldata = e.message ∧
          m.hash = pxAny.keccak e.message ∧ m.height = e.blockNumber - 1)
      (eventsInRange W7 1 0 3)
      [{ target := [1], sender := [2], data := [3], nonce := 4, calldata := [5]
         hash := [0, 5], height := 1 }] :=
  C7_message_scanning pxAny W7 1 0 3 _ (by decide) (by rfl)

theorem padElements_length (stateRoots : List Bytes) :
    (padElements stateRoots).length = 2 ^ ceilLog2 stateRoots.length := by
  simp [padElements]

theorem padElements_getElem?_lt (stateRoots : List Bytes) (i : Nat)
    (hi : i < stateRoots.length) (hiN : i < 2 ^ ceilLog2 stateRoots.length) :
    (padElements stateRoots)[i]? = some (stateRoots.getD i []) := by
  unfold padElements
  rw [List.getElem?_map, List.getElem?_range hiN]
  simp [hi]

theorem padElements_getElem?_ge (stateRoots : List Bytes) (i : Nat)
    (hi : stateRoots.length ≤ i) (hiN : i < 2 ^ ceilLog2 stateRoots.length) :
    (padElements stateRoots)[i]? = some (List.replicate 32 0) := by
  unfold padElements
  rw [List.getElem?_map, List.getElem?_range hiN]
  have hge : ¬ i < stateRoots.length := by omega
  simp [hge]

/-- C2.  Merkle inclusion: on a batch with `n ≥ 1` state roots (well-formed:
`stateRoots.length = batchSize`), `_getMessageProof` builds the power-of-two
padded leaf layer (`leaf i = keccak(stateRoots[i])` below `n`, `keccak` of 32
zero bytes up to `N = 2 ^ ceil(log2 n)`), returns
`stateRootProof.index = height - prevTotalElements`,
`stateRoot = stateRoots[index]`, and bottom-up siblings such that folding
`leaves[index]` with them reproduces the tree root — which equals
`batch.batchRoot` whenever the batch's committed root is that tree root. -/
theorem C2_merkle_inclusion (px : Prims) (w : World) (blockOffset : Nat) (m : SentMessage)
    (pd : EthProofResult) (batch : StateBatchHeader)
    (hp : w.ethGetProof w.l2ToL1MessagePasserAddress
        (relayerMessageSlot px.keccak m.calldata w.l2CrossDomainMessengerAddress)
        (m.height + blockOffset) = some pd)
    (hbatch : _getStateBatchHeader w m.height = some batch)
    (hwf : batch.stateRoots.length = batch.batchSize) :
    ∃ mp, _getMessageProof px w blockOffset m = some mp ∧
      mp.stateRootProof.index = m.height - batch.prevTotalElements ∧
      mp.stateRoot = batch.stateRoots.getD (m.height - batch.prevTotalElements) [] ∧
      ((padElements batch.stateRoots).map px.keccak).length =
        2 ^ ceilLog2 batch.stateRoots.length ∧
      (∀ i, i < batch.stateRoots.length →
        ((padElements batch.stateRoots).map px.keccak).getD i [] =
          px.keccak (batch.stateRoots.getD i [])) ∧
      (∀ i, batch.stateRoots.length ≤ i → i < 2 ^ ceilLog2 batch.stateRoots.length →
        ((padElements batch.stateRoots).map px.keccak).getD i [] =
          px.keccak (List.replicate 32 0)) ∧
      foldProof px.keccak
          (((padElements batch.stateRoots).map px.keccak).getD
            (m.height - batch.prevTotalElements) [])
          (m.height - batch.prevTotalElements) mp.stateRootProof.siblings =
        layersRoot px.keccak ((padElements batch.stateRoots).map px.keccak) ∧
      (layersRoot px.keccak ((padElements batch.stateRoots).map px.keccak) = batch.batchRoot →
        foldProof px.keccak
            (((padElements batch.stateRoots).map px.keccak).getD
              (m.height - batch.prevTotalElements) [])
            (m.height - batch.prevTotalElements) mp.stateRootProof.siblings =
          batch.batchRoot) := by
  obtain ⟨hple, hplt⟩ := getStateBatchHeader_covers w m.height batch hbatch
  have hidxn : m.height - batch.prevTotalElements < batch.stateRoots.length := by omega
  have hn1 : 1 ≤ batch.stateRoots.length := by omega
  have hN : batch.stateRoots.length ≤ 2 ^ ceilLog2 batch.stateRoots.length :=
    le_two_pow_ceilLog2 _ hn1
  have hleavlen : ((padElements batch.stateRoots).map px.keccak).length =
      2 ^ ceilLog2 batch.stateRoots.length := by
    simp [padElements_length]
  have hidxN : m.height - batch.prevTotalElements < 2 ^ ceilLog2 batch.stateRoots.length := by
    omega
  have hfold : foldProof px.keccak
      (((padElements batch.stateRoots).map px.keccak).getD
        (m.height - batch.prevTotalElements) [])
      (m.height - batch.prevTotalElements)
      (proofSiblings px.keccak ((padElements batch.stateRoots).map px.keccak)
        (m.height - batch.prevTotalElements)) =
      layersRoot px.keccak ((padElements batch.stateRoots).map px.keccak) := by
    unfold proofSiblings layersRoot
    rw [hleavlen, ceilLog2_two_pow]
    exact foldProof_proofSiblingsAux px.keccak (ceilLog2 batch.stateRoots.length)
      ((padElements batch.stateRoots).map px.keccak)
      (m.height - batch.prevTotalElements) hleavlen hidxN
  have hmp : _getMessageProof px w blockOffset m = some
      { stateRoot := batch.stateRoots.getD (m.height - batch.prevTotalElements) []
        stateRootBatchHeader := batch
        stateRootProof :=
          { index := m.height - batch.prevTotalElements
            siblings :=
              proofSiblings px.keccak ((padElements batch.stateRoots).map px.keccak)
                (m.height - batch.prevTotalElements) }
        stateTrieWitness := px.rlpEncode pd.accountProof
        storageTrieWitness := px.rlpEncode (pd.storageProof.headD []) } := by
    simp only [_getMessageProof, hp, hbatch]
  refine ⟨_, hmp, rfl, rfl, hleavlen, ?_, ?_, hfold, fun hroot => hroot ▸ hfold⟩
  · intro i hi
    have hiN : i < 2 ^ ceilLog2 batch.stateRoots.length := by omega
    rw [List.getD_eq_getElem?_getD, List.getElem?_map,
      padElements_getElem?_lt batch.stateRoots i hi hiN]
    rfl
  · intro i hi hiN
    rw [List.getD_eq_getElem?_getD, List.getElem?_map,
      padElements_getElem?_ge batch.stateRoots i hi hiN]
    rfl

/-- Concrete world used to witness the Merkle-inclusion claim: one batch of
three state roots at `prevTotalElements = 0`, with a responsive `eth_getProof`
endpoint. -/
def W2 : World :=
  { batchEvents :=
      [ { batchIndex := 0, batchRoot := [7], batchSize := 3, prevTotalElements := 0
          extraData := [], transactionHash := 0 } ]
    txStateRoots := fun _ => [[10], [11], [12]]
    insideFraudProofWindow := fun _ => false
    sentMessageEvents := []
    decodeRelayMessage := fun _ => none
    ethGetProof := fun _ _ _ => some { accountProof := [], storageProof := [] }
    successfulMessages := fun _ => false
    l2CrossDomainMessengerAddress := []
    l2ToL1MessagePasserAddress := [] }

def m2val : SentMessage :=
  { target := [1], sender := [2], data := [3], nonce := 4, calldata := [9]
    hash := [0, 9], height := 1 }

def batch2val : StateBatchHeader :=
  { batchIndex := 0, batchRoot := [7], batchSize := 3, prevTotalElements := 0
    extraData := [], stateRoots := [[10], [11], [12]] }

theorem C2_merkle_inclusion_witness :
    ∃ mp, _getMessageProof pxAny W2 0 m2val = some mp ∧
      mp.stateRootProof.index = m2val.height - batch2val.prevTotalElements ∧
      mp.stateRoot = batch2val.stateRoots.getD (m2val.height - batch2val.prevTotalElements) [] ∧
      ((padElements batch2val.stateRoots).map pxAny.keccak).length =
        2 ^ ceilLog2 batch2val.stateRoots.length ∧
      (∀ i, i < batch2val.stateRoots.length →
        ((padElements batch2val.stateRoots).map pxAny.keccak).getD i [] =
          pxAny.keccak (batch2val.stateRoots.getD i [])) ∧
      (∀ i, batch2val.stateRoots.length ≤ i → i < 2 ^ ceilLog2 batch2val.stateRoots.length →
        ((padElements batch2val.stateRoots).map pxAny.keccak).getD i [] =
          pxAny.keccak (List.replicate 32 0)) ∧
      foldProof pxAny.keccak
          (((padElements batch2val.stateRoots).map pxAny.keccak).getD
            (m2val.height - batch2val.prevTotalElements) [])
          (m2val.height - batch2val.prevTotalElements) mp.stateRootProof.siblings =
        layersRoot pxAny.keccak ((padElements batch2val.stateRoots).map pxAny.keccak) ∧
      (layersRoot pxAny.keccak ((padElements batch2val.stateRoots).map pxAny.keccak) =
          batch2val.batchRoot →
        foldProof pxAny.keccak
            (((padElements batch2val.stateRoots).map pxAny.keccak).getD
              (m2val.height - batch2val.prevTotalElements) [])
            (m2val.height - batch2val.prevTotalElements) mp.stateRootProof.siblings =
          batch2val.batchRoot) :=
  C2_merkle_inclusion pxAny W2 0 m2val { accountProof := [], storageProof := [] } batch2val
    (by rfl) (by decide) (by decide)

theorem tick_ok_inv (px : Prims) (w : World) (blockOffset fuel : Nat) (s : RelayerState)
    (r : TickResult) (h : tick px w blockOffset fuel s = .ok r) :
    (_isTransactionFinalized w s.nextUnfinalizedTxHeight = false ∧
      r = { state := s, relayCalls := [] }) ∨
    (∃ messages,
      _isTransactionFinalized w s.nextUnfinalizedTxHeight = true ∧
      _getSentMessages px w blockOffset s.nextUnfinalizedTxHeight
        (advanceCursor w fuel s.nextUnfinalizedTxHeight) = .ok messages ∧
      r = { state :=
              { lastFinalizedTxHeight := s.nextUnfinalizedTxHeight
                nextUnfinalizedTxHeight := advanceCursor w fuel s.nextUnfinalizedTxHeight }
            relayCalls :=
              messages.filterMap
                (fun m =>
                  if w.successfulMessages m.hash then none
                  else some (m, _getMessageProof px w blockOffset m)) }) := by
  unfold tick at h
  by_cases hfin : _isTransactionFinalized w s.nextUnfinalizedTxHeight
  · right
    simp only [hfin, Bool.not_true, Bool.false_eq_true, if_false] at h
    cases hmsg : _getSentMessages px w blockOffset s.nextUnfinalizedTxHeight
        (advanceCursor w fuel s.nextUnfinalizedTxHeight) with
    | error e => rw [hmsg] at h; cases h
    | ok messages =>
      rw [hmsg] at h
      cases h
      exact ⟨messages, hfin, rfl, rfl⟩
  · left
    simp only [Bool.not_eq_true] at hfin
    simp only [hfin, Bool.not_false, if_true] at h
    cases h
    exact ⟨hfin, rfl⟩

theorem relayCalls_mem_inv (px : Prims) (w : World) (blockOffset fuel : Nat)
    (s : RelayerState) (r : TickResult) (h : tick px w blockOffset fuel s = .ok r) :
    ∀ c, c ∈ r.relayCalls →
      w.successfulMessages c.1.hash = false ∧
      c.2 = _getMessageProof px w blockOffset c.1 ∧
      s.nextUnfinalizedTxHeight ≤ c.1.height := by
  intro c hc
  rcases tick_ok_inv px w blockOffset fuel s r h with ⟨hfin, hr⟩ | ⟨messages, hfin, hmsg, hr⟩
  · subst hr
    simp at hc
  · subst hr
    simp only at hc
    rcases List.mem_filterMap.mp hc with ⟨m, hm, hsome⟩
    by_cases hsucc : w.successfulMessages m.hash
    · rw [if_pos hsucc] at hsome; cases hsome
    · rw [if_neg hsucc] at hsome
      have hceq := Option.some_inj.mp hsome
      cases hceq
      refine ⟨by simpa using hsucc, rfl, ?_⟩
      rcases mapExcept_mem_of_ok _ _ _ hmsg m hm with ⟨e, he, hdec⟩
      unfold eventsInRange at he
      have hb := (List.mem_filter.mp he).2
      simp only [Bool.and_eq_true, decide_eq_true_eq] at hb
      unfold decodeSentEvent at hdec
      cases hd : w.decodeRelayMessage e.message with
      | none => rw [hd] at hdec; cases hdec
      | some d =>
        rw [hd] at hdec
        cases hdec
        show s.nextUnfinalizedTxHeight ≤ e.blockNumber - blockOffset
        omega

theorem tickCalls_height_ge (px : Prims) (w : World) (blockOffset fuel : Nat)
    (s : RelayerState) :
    ∀ c, c ∈ tickCalls px w blockOffset fuel s → s.nextUnfinalizedTxHeight ≤ c.1.height := by
  intro c hc
  unfold tickCalls at hc
  cases htick : tick px w blockOffset fuel s with
  | error e => rw [htick] at hc; simp at hc
  | ok r =>
    rw [htick] at hc
    exact (relayCalls_mem_inv px w blockOffset fuel s r htick c hc).2.2

/-- C8 (amended).  When proof construction fails, `_getMessageProof` returns
`undefined`; the controller does not skip the message — every scanned,
not-yet-relayed message receives a `_relayMessageToL1` call carrying exactly
the (possibly absent) proof-construction result, the call's failure is caught
and the loop continues with the next message — and the message is not retried
on a later tick: every relay call of every later tick is for a height at or
above the advanced cursor, which lies above the failed message's height
whenever that height is strictly below the new `nextUnfinalizedTxHeight`. -/
theorem C8_soft_failure_amended (px : Prims) (w : World) (blockOffset fuel : Nat)
    (s : RelayerState) (r : TickResult) (h : tick px w blockOffset fuel s = .ok r) :
    (∀ c, c ∈ r.relayCalls →
      w.successfulMessages c.1.hash = false ∧
      c.2 = _getMessageProof px w blockOffset c.1 ∧
      s.nextUnfinalizedTxHeight ≤ c.1.height) ∧
    (∀ n c, c ∈ tickCalls px w blockOffset fuel (stateAfter px w blockOffset fuel r.state n) →
      r.state.nextUnfinalizedTxHeight ≤ c.1.height) := by
  refine ⟨relayCalls_mem_inv px w blockOffset fuel s r h, ?_⟩
  intro n c hc
  have h1 := tickCalls_height_ge px w blockOffset fuel
    (stateAfter px w blockOffset fuel r.state n) c hc
  have h2 := stateAfter_next_mono px w blockOffset fuel r.state n
  omega

/-- C9 (amended).  A decode failure in any scanned event's payload is not
contained to that event: the exception thrown inside `_getSentMessages`'s map
propagates out of the tick (there is no surrounding try/catch in `_start`),
aborting the whole tick and terminating the relay loop — no subsequent tick
runs. -/
theorem C9_decode_failure_amended (px : Prims) (w : World) (blockOffset fuel : Nat)
    (s : RelayerState)
    (hfin : _isTransactionFinalized w s.nextUnfinalizedTxHeight = true)
    (hbad : ∃ e, e ∈ eventsInRange w blockOffset s.nextUnfinalizedTxHeight
        (advanceCursor w fuel s.nextUnfinalizedTxHeight) ∧
      w.decodeRelayMessage e.message = none) :
    tick px w blockOffset fuel s = .error () ∧
    ∀ n, runLoop px w blockOffset fuel (n + 1) s = .error () := by
  obtain ⟨e, he, hd⟩ := hbad
  have herr : decodeSentEvent px w blockOffset e = .error () := by
    unfold decodeSentEvent
    rw [hd]
  have hmsg : _getSentMessages px w blockOffset s.nextUnfinalizedTxHeight
      (advanceCursor w fuel s.nextUnfinalizedTxHeight) = .error () :=
    mapExcept_error_of_mem _ _ e he herr
  have htick : tick px w blockOffset fuel s = .error () := by
    unfold tick
    simp only [hfin, Bool.not_true, Bool.false_eq_true, if_false]
    rw [hmsg]
  refine ⟨htick, ?_⟩
  intro n
  unfold runLoop
  rw [htick]

/-- Concrete chain exhibiting the finalization-gate boundary: batch 0 (height
0) is past the fraud window, batch 1 (height 1) is still inside it, and one
`SentMessage` event sits at L2 height 1 — the first unfinalized height. -/
def W1 : World :=
  { batchEvents :=
      [ { batchIndex := 0, batchRoot := [1], batchSize := 1, prevTotalElements := 0
          extraData := [], transactionHash := 0 }
      , { batchIndex := 1, batchRoot := [2], batchSize := 1, prevTotalElements := 1
          extraData := [], transactionHash := 1 } ]
    txStateRoots := fun t => if t = 0 then [[10]] else [[20]]
    insideFraudProofWindow := fun hdr => decide (hdr.batchIndex = 1)
    sentMessageEvents := [{ blockNumber := 1, message := [9] }]
    decodeRelayMessage := fun _ =>
      some { target := [1], sender := [2], message := [3], messageNonce := 7 }
    ethGetProof := fun _ _ _ => some { accountProof := [], storageProof := [] }
    successfulMessages := fun _ => false
    l2CrossDomainMessengerAddress := []
    l2ToL1MessagePasserAddress := [] }

/-- C1.  Evaluation at the failing input: height 1 is not finalized (its batch
is still inside the fraud proof window), yet one tick from cursor 0 — because
the `queryFilter` upper bound `endHeight + blockOffset` is inclusive — scans
the message at height 1 and makes a `relayMessage` submission for it with a
successfully built proof.  The finalization gate of the claim is violated at
the first unfinalized height. -/
theorem C1_finalization_gate_violation :
    _isTransactionFinalized W1 1 = false ∧
    (_getStateBatchHeader W1 1).map W1.insideFraudProofWindow = some true ∧
    (tick pxAny W1 0 3 ⟨0, 0⟩).toOption.map
        (fun r => (r.state.lastFinalizedTxHeight, r.state.nextUnfinalizedTxHeight,
          r.relayCalls.map (fun c => (c.1.height, c.2.isSome)))) =
      some (0, 1, [(1, true)]) :=
  ⟨by decide, by decide, by decide⟩

/-- Concrete chain for the soft-failure scenario: one finalized batch covering
height 0, one decodable message at height 0, and an `eth_getProof` endpoint
that always fails. -/
def W8 : World :=
  { batchEvents :=
      [ { batchIndex := 0, batchRoot := [7], batchSize := 1, prevTotalElements := 0
          extraData := [], transactionHash := 0 } ]
    txStateRoots := fun _ => [[10]]
    insideFraudProofWindow := fun _ => false
    sentMessageEvents := [{ blockNumber := 0, message := [9] }]
    decodeRelayMessage := fun _ =>
      some { target := [1], sender := [2], message := [3], messageNonce := 7 }
    ethGetProof := fun _ _ _ => none
    successfulMessages := fun _ => false
    l2CrossDomainMessengerAddress := []
    l2ToL1MessagePasserAddress := [] }

/-- The message scanned from `W8`'s single event. -/
def m8val : SentMessage :=
  { target := [1], sender := [2], data := [3], nonce := 7, calldata := [9]
    hash := [0, 9], height := 0 }

/-- C8 (counterexample).  With proof construction failing for the message at
height 0, the first tick still makes a `_relayMessageToL1` call for it — with
no proof — instead of skipping it, and the following tick (cursor now at
⟨0, 1⟩, a fixed point) makes no relay call at all: the message is never
retried on a later tick. -/
theorem C8_soft_failure_counterexample :
    (tick pxAny W8 0 3 ⟨0, 0⟩).toOption.map
        (fun r => (r.state.lastFinalizedTxHeight, r.state.nextUnfinalizedTxHeight,
          r.relayCalls.map (fun c => (c.1.height, c.2)))) =
      some (0, 1, [(0, (none : Option MessageProof))]) ∧
    tickState pxAny W8 0 3 ⟨0, 1⟩ = ⟨0, 1⟩ ∧
    tickCalls pxAny W8 0 3 ⟨0, 1⟩ = [] :=
  ⟨by decide, by decide, by decide⟩

theorem C8_soft_failure_amended_witness :
    W8.successfulMessages m8val.hash = false ∧
    (none : Option MessageProof) = _getMessageProof pxAny W8 0 m8val ∧
    (0 : Nat) ≤ m8val.height :=
  (C8_soft_failure_amended pxAny W8 0 3 ⟨0, 0⟩
      { state := ⟨0, 1⟩, relayCalls := [(m8val, none)] } (by rfl)).1
    (m8val, none) (by decide)

/-- Concrete chain for the decode-failure scenario: one finalized batch
covering height 0 and one `SentMessage` event whose payload fails to decode. -/
def W9 : World :=
  { batchEvents :=
      [ { batchIndex := 0, batchRoot := [7], batchSize := 1, prevTotalElements := 0
          extraData := [], transactionHash := 0 } ]
    txStateRoots := fun _ => [[10]]
    insideFraudProofWindow := fun _ => false
    sentMessageEvents := [{ blockNumber := 0, message := [9] }]
    decodeRelayMessage := fun _ => none
    ethGetProof := fun _ _ _ => none
    successfulMessages := fun _ => false
    l2CrossDomainMessengerAddress := []
    l2ToL1MessagePasserAddress := [] }

/-- C9 (counterexample).  A single malformed `SentMessage` payload makes the
tick throw, and the relay loop — given budget for two ticks — terminates with
the escaped exception instead of continuing on subsequent ticks. -/
theorem C9_decode_failure_counterexample :
    tick pxAny W9 0 3 ⟨0, 0⟩ = .error () ∧
    runLoop pxAny W9 0 3 2 ⟨0, 0⟩ = .error () :=
  ⟨rfl, rfl⟩

theorem C9_decode_failure_amended_witness :
    tick pxAny W9 0 3 ⟨0, 0⟩ = .error () ∧
    runLoop pxAny W9 0 3 1 ⟨0, 0⟩ = .error () :=
  ⟨(C9_decode_failure_amended pxAny W9 0 3 ⟨0, 0⟩ (by decide)
      ⟨{ blockNumber := 0, message := [9] }, by decide, rfl⟩).1,
    (C9_decode_failure_amended pxAny W9 0 3 ⟨0, 0⟩ (by decide)
      ⟨{ blockNumber := 0, message := [9] }, by decide, rfl⟩).2 0⟩

theorem C10_falsy_default_collapse_witness :
    (initFields { l2ChainStartingHeight := none, pollingInterval := some 0, blockOffset := none
      }).pollingInterval ≠ 0 :=
  C10_falsy_default_collapse.2.2
    { l2ChainStartingHeight := none, pollingInterval := some 0, blockOffset := none }

end MessageRelayer
